import Mathlib

set_option maxHeartbeats 1000000

/-!
Verification of the emitter-analysis tool (src/main.go).

The tool is a single-pass static analyzer over Go syntax trees.  Per file it
recognizes four syntactic patterns (emitter bindings, emission call sites,
emitter-capability fields, event constants), resolves a best-effort nominal
type for the final argument of candidate call sites via `typeFromObj`, and
reports line-oriented facts.  The cross-table mismatch join is performed by an
external pipeline, so the correlation step is modelled from the specification.

The Go AST fragment actually consumed by the analyzer is embedded as a family
of mutually inductive types; the analyzer's traversal (`ast.Inspect`) is the
preorder flattening of that tree, and the per-file handler is `stepNode`.
-/

namespace EmitterAnalysis

/-- Kind of enclosing composite literal. The analyzer itself never inspects the
`Type` field of a `CompositeLit`, so this tag only records which surface syntax
(struct literal, map literal, ...) the literal was written with; it lets us state
context-sensitivity properties that the source code does not check. -/
inductive CompKind where
  | structLit
  | mapLit
  | arrayLit
  | otherLit
deriving DecidableEq

mutual
/-- Embedding of the `ast.Expr` forms consumed by the analyzer.  `ident` carries
the resolved declaration object (`ast.Ident.Obj`, possibly nil). Any other
expression form is `otherExpr`. -/
inductive GExpr where
  | ident (name : String) (obj : Option GObj)
  | selector (x : GExpr) (sel : String)
  | call (fn : GExpr) (args : List GExpr)
  | basicLit (value : String)
  | star (x : GExpr)
  | keyValue (key : GExpr) (value : GExpr)
  | composite (kind : CompKind) (elts : List GExpr)
  | otherExpr

/-- Embedding of `ast.Object`: a resolved binding carrying its declaration. -/
inductive GObj where
  | mk (decl : GDecl)

/-- Embedding of the declaration forms `typeFromObj` dispatches on
(`o.Decl`): `*ast.FuncDecl` (its result list, `nil` vs present),
`*ast.Field`, `*ast.AssignStmt` (the parser guarantees at least one
left-hand side and one right-hand side, so the first of each is explicit),
and any other form, tagged with its dynamic type name (the `%T` string). -/
inductive GDecl where
  | funcDecl (results : Option (List GField))
  | fieldDecl (f : GField)
  | assignStmt (lhs0 : GExpr) (lhsRest : List GExpr) (rhs0 : GExpr) (rhsRest : List GExpr)
  | otherDecl (kind : String)

/-- Embedding of `ast.Field`: names and a type expression. -/
inductive GField where
  | mk (names : List String) (ty : GExpr)
end

mutual
/-- Size of an expression, measuring the whole reachable term including
declaration objects hanging off identifiers. -/
def esize : GExpr → Nat
  | .ident _ o => osizeO o + 1
  | .selector x _ => esize x + 1
  | .call f as => esize f + elsize as + 1
  | .basicLit _ => 1
  | .star x => esize x + 1
  | .keyValue k v => esize k + esize v + 1
  | .composite _ es => elsize es + 1
  | .otherExpr => 1

/-- Size of a list of expressions. -/
def elsize : List GExpr → Nat
  | [] => 0
  | e :: es => esize e + elsize es

/-- Size of an optional declaration object. -/
def osizeO : Option GObj → Nat
  | none => 1
  | some o => osize o + 1

/-- Size of a declaration object. -/
def osize : GObj → Nat
  | .mk d => dsize d + 1

/-- Size of a declaration. -/
def dsize : GDecl → Nat
  | .funcDecl none => 1
  | .funcDecl (some fs) => flsize fs + 1
  | .fieldDecl f => fsize f + 1
  | .assignStmt l lr r rr => esize l + elsize lr + esize r + elsize rr + 1
  | .otherDecl _ => 1

/-- Size of a field. -/
def fsize : GField → Nat
  | .mk _ t => esize t + 1

/-- Size of a list of fields. -/
def flsize : List GField → Nat
  | [] => 0
  | f :: fs => fsize f + flsize fs
end

/-- The `%T` format of a declaration, as printed into the synthetic placeholder. -/
def declKind : GDecl → String
  | .funcDecl _ => "*ast.FuncDecl"
  | .fieldDecl _ => "*ast.Field"
  | .assignStmt _ _ _ _ => "*ast.AssignStmt"
  | .otherDecl k => k

/-- Translation of `selectorParts` (src/main.go:162): succeeds exactly on a
`SelectorExpr` whose `X` is an identifier, returning the two name parts. -/
def selectorParts : GExpr → Option (String × String)
  | .selector (.ident i _) sel => some (i, sel)
  | _ => none

/-- The synthetic placeholder `typeFromObj` returns when no resolution rule
matches: `ei + "." + ese` where `ei = fmt.Sprintf("pkg-%s-%T\n", tag, o.Decl)`
(note the embedded newline) and `ese = "sel-" + tag` (src/main.go:174-175,230). -/
def mkPlaceholder (tag kind : String) : String :=
  ("pkg-" ++ tag ++ "-" ++ kind ++ "\n") ++ "." ++ ("sel-" ++ tag)

/-- Translation of the body of `typeFromObj` (src/main.go:172-233), with the
recursive call abstracted as `recurse`.  The source recurses directly on the
declaration-object graph; the embedding spends one unit of fuel per recursive
hop (`typeFromObjFuel` below), and `typeFromObjFuel_congr` shows any fuel at
least `osizeO o` computes the stable (true) value.  Branches:
function declaration with a first result of pointer-to-qualified shape; field
declaration of pointer-to-qualified shape; assignment whose first left-hand side
is an identifier, inspecting the first right-hand side:
an identifier right-hand side is recursively resolved by the source but the
result is discarded (src/main.go:205-211), so the placeholder is returned;
a call through a qualified callee is not looked up; a call through a plain
identifier callee is recursively resolved and its value returned
(the single propagating case).  Everything else yields the placeholder;
a nil object is the only error. -/
def typeFromObjBody (recurse : Option GObj → String → Option String)
    (d : GDecl) (tag : String) : Option String :=
  match d with
  | .funcDecl results =>
    match results with
    | some (.mk _ (.star (.selector (.ident sti _) stse)) :: _) =>
      some (sti ++ "." ++ stse)
    | _ => some (mkPlaceholder tag (declKind d))
  | .fieldDecl (.mk _ (.star (.selector (.ident sti _) stse))) =>
    some (sti ++ "." ++ stse)
  | .fieldDecl _ => some (mkPlaceholder tag (declKind d))
  | .assignStmt (.ident _ _) _ rhs0 _ =>
    match rhs0 with
    | .ident _ _robj =>
      -- the source recursively resolves `_robj` here and discards the result
      some (mkPlaceholder tag (declKind d))
    | .call fn _ =>
      match selectorParts fn with
      | some _ => some (mkPlaceholder tag (declKind d))
      | none =>
        match fn with
        | .ident _ fobj =>
          match recurse fobj (tag ++ "-rhs-obj") with
          | some t => some t
          | none => some (mkPlaceholder tag (declKind d))
        | _ => some (mkPlaceholder tag (declKind d))
    | _ => some (mkPlaceholder tag (declKind d))
  | .assignStmt _ _ _ _ => some (mkPlaceholder tag (declKind d))
  | .otherDecl k => some (mkPlaceholder tag k)

/-- The fuel-indexed wrapper driving `typeFromObjBody`: fuel zero is exhausted,
a nil object is the error case, and otherwise the body runs with the
recursor at one unit less fuel. -/
def typeFromObjFuel : Nat → Option GObj → String → Option String
  | 0, _, _ => none
  | _ + 1, none, _ => none
  | fuel + 1, some (.mk d), tag => typeFromObjBody (typeFromObjFuel fuel) d tag

/-- Translation of `typeFromObj`: the fuel `osizeO o` strictly bounds the length
of any declaration chain reachable from `o`, so this computes the value of the
source's direct recursion. -/
def typeFromObj (o : Option GObj) (tag : String) : Option String :=
  typeFromObjFuel (osizeO o) o tag

example : typeFromObj (some (.mk (.otherDecl ("*ast.ValueSpec")))) ("x")
    = some (mkPlaceholder ("x") ("*ast.ValueSpec")) := by decide

/-- A space or tab, the character class of the `commentStrip` pattern. -/
def wsChar (c : Char) : Bool := c == ' ' || c == '\t'

/-- Translation of `commentStrip.ReplaceAllString(text, "")` with
`commentStrip = regexp.MustCompile("^[ \t]*//[ \t]*")` (src/main.go:18,143):
the anchored pattern matches at most once, removing leading spaces and tabs,
a `//` marker, and the spaces and tabs following it; if the text does not
start with optional whitespace followed by `//`, it is left unchanged. -/
def commentStrip (s : String) : String :=
  match s.data.dropWhile wsChar with
  | '/' :: '/' :: rest => ⟨rest.dropWhile wsChar⟩
  | _ => s

/-- Embedding of `ast.ValueSpec` as consumed by the constant handler: the first
declared name (the parser guarantees at least one), the initializer list
(`nil` or non-empty), and the text of the first trailing comment if a comment
group is attached (a comment group always has at least one comment). -/
structure GSpec where
  name0 : String
  values : Option (List GExpr)
  comment : Option String

/-- A node event handed to the `ast.Inspect` callback, carrying exactly the
structure the handler dispatches on: an expression (covering the
`KeyValueExpr` and `CallExpr` branches), an `ast.Field`, a `const`
`GenDecl` with its specs, or any other node. -/
inductive VisitNode where
  | vexpr (e : GExpr)
  | vfield (names : List String) (ty : GExpr)
  | vconst (specs : List GSpec)
  | vother

/-- Embedding of the file-level syntax surrounding the recognized patterns:
expressions in statement position, fields (of struct types or signatures),
`const` and non-`const` declaration groups, and generic nodes with children
(blocks, function bodies, and so on). -/
inductive GTree where
  | exprT (e : GExpr)
  | fieldT (names : List String) (ty : GExpr)
  | constDecl (specs : List GSpec)
  | varDecl (specs : List GSpec)
  | block (ts : List GTree)

/-- A file is a list of top-level trees (`pass.Files` entries). -/
def GFile := List GTree

mutual
/-- Preorder flattening of an expression, as `ast.Inspect` visits it: the node
itself, then its children left to right. -/
def exprNodes : GExpr → List VisitNode
  | .ident n o => [.vexpr (.ident n o)]
  | .selector x s => .vexpr (.selector x s) :: exprNodes x
  | .call f as => .vexpr (.call f as) :: (exprNodes f ++ exprListNodes as)
  | .basicLit v => [.vexpr (.basicLit v)]
  | .star x => .vexpr (.star x) :: exprNodes x
  | .keyValue k v => .vexpr (.keyValue k v) :: (exprNodes k ++ exprNodes v)
  | .composite ck es => .vexpr (.composite ck es) :: exprListNodes es
  | .otherExpr => [.vexpr .otherExpr]

/-- Preorder flattening of an expression list. -/
def exprListNodes : List GExpr → List VisitNode
  | [] => []
  | e :: es => exprNodes e ++ exprListNodes es
end

/-- Preorder flattening of the initializer expressions of a spec list. -/
def specValueNodes (specs : List GSpec) : List VisitNode :=
  specs.foldr (fun q acc =>
    (match q.values with
     | some vs => exprListNodes vs
     | none => []) ++ acc) []

mutual
/-- Preorder flattening of a tree: the node itself, then its children. -/
def treeNodes : GTree → List VisitNode
  | .exprT e => .vother :: exprNodes e
  | .fieldT ns ty => .vfield ns ty :: exprNodes ty
  | .constDecl specs => .vconst specs :: specValueNodes specs
  | .varDecl specs => .vother :: specValueNodes specs
  | .block ts => .vother :: treeListNodes ts

/-- Preorder flattening of a list of trees. -/
def treeListNodes : List GTree → List VisitNode
  | [] => []
  | t :: ts => treeNodes t ++ treeListNodes ts
end

/-- Preorder node sequence of a whole file. -/
def fileNodes (f : GFile) : List VisitNode :=
  treeListNodes f

/-- A recorded fact, one per diagnostic line the analyzer prints:
`binding` for the `emitter:` line (an emitter-binding record), `callsite`
for the `checkemitter:` line (a matched emission call site), `fieldEmitter`
for the `Found an emitter:` line, and `constDecl` for the `emitter const`
line (an event-constant record). -/
inductive Fact where
  | binding (localName channelConstant : String)
  | callsite (recv meth inferred channel : String)
  | fieldEmitter (name : String)
  | constDecl (pkg name value hint : String)
deriving DecidableEq

/-- Go map lookup over the association-list model of `emitters`; insertions
are consed at the head, so the head-first search realizes overwrite-on-insert. -/
def lookupE (st : List (String × String)) (k : String) : Option String :=
  (st.find? (fun p => p.1 == k)).map (fun p => p.2)

/-- The fact recorded for one `ValueSpec` of a `const` declaration
(src/main.go:135-152): the first initializer must be a `BasicLit`; the hint is
the stripped trailing comment, defaulting to the `types.UnknownEventType`
sentinel; only names with the `Event` prefix are recorded. -/
def constFactOfSpec (pkg : String) (q : GSpec) : Option Fact :=
  match q.values with
  | some (.basicLit bv :: _) =>
    let hint := match q.comment with
      | some ctext => commentStrip ctext
      | none => "types.UnknownEventType"
    if ("Event").data.isPrefixOf q.name0.data then
      some (.constDecl pkg q.name0 bv hint)
    else none
  | _ => none

/-- Translation of the body of the `ast.Inspect` callback (src/main.go:61-157)
for one node: given the per-file `emitters` table, produce the updated table
and the facts recorded at this node.
A `KeyValueExpr` with an identifier key whose value is a call with a
two-part qualified callee and a two-part qualified first argument records an
emitter binding and extends the table.  A `CallExpr` with a two-part
qualified callee, at least one argument, and a final argument that is a
plain identifier has that identifier's type resolved; a fact is recorded only
when resolution succeeds and the method name is bound in the table.  A field
named with type `rabbitEvents.EventEmitter` is noted.  A `const` group
records its event constants. -/
def stepNode (pkg : String) (emitters : List (String × String)) :
    VisitNode → List (String × String) × List Fact
  | .vexpr (.keyValue (.ident i _) (.call fn args)) =>
    match selectorParts fn with
    | some _ =>
      match args with
      | a0 :: _ =>
        match selectorParts a0 with
        | some (ai, ase) =>
          ((i, ai ++ "." ++ ase) :: emitters, [.binding i (ai ++ "." ++ ase)])
        | none => (emitters, [])
      | [] => (emitters, [])
    | none => (emitters, [])
  | .vexpr (.call fn args) =>
    match selectorParts fn with
    | some (fi, fse) =>
      match args.getLast? with
      | some (.ident _ aobj) =>
        match typeFromObj aobj fse with
        | some t =>
          match lookupE emitters fse with
          | some v => (emitters, [.callsite fi fse t v])
          | none => (emitters, [])
        | none => (emitters, [])
      | _ => (emitters, [])
    | none => (emitters, [])
  | .vfield names ty =>
    match names with
    | n0 :: _ =>
      match selectorParts ty with
      | some (i, se) =>
        if i == "rabbitEvents" && se == "EventEmitter" then
          (emitters, [.fieldEmitter n0])
        else (emitters, [])
      | none => (emitters, [])
    | [] => (emitters, [])
  | .vconst specs => (emitters, specs.filterMap (constFactOfSpec pkg))
  | _ => (emitters, [])

/-- Fold of `stepNode` over a node sequence, threading the `emitters` table and
concatenating recorded facts in traversal order. -/
def processNodes (pkg : String) : List (String × String) → List VisitNode → List Fact
  | _, [] => []
  | st, n :: ns =>
    (stepNode pkg st n).2 ++ processNodes pkg (stepNode pkg st n).1 ns

/-- Facts extracted from one file: the `emitters` table starts empty
(src/main.go:59 allocates it fresh inside the file loop). -/
def runFile (pkg : String) (f : GFile) : List Fact :=
  processNodes pkg [] (fileNodes f)

/-- Translation of `run` (src/main.go:55-160): each file of the pass is
traversed with its own fresh `emitters` table, facts concatenated in order. -/
def run (pkg : String) : List GFile → List Fact
  | [] => []
  | f :: fs => runFile pkg f ++ run pkg fs

/-- A call-site fact (`CallSite` joined with its emitter binding): receiver
name, method name, the inferred type of the final argument, and the channel
constant the method name was bound to. -/
structure CallSiteFact where
  recv : String
  meth : String
  inferred : String
  channel : String
deriving DecidableEq

/-- A constant-declaration fact (`ConstantDeclaration`): package name,
constant name, literal value, and declared payload type. -/
structure ConstFact where
  pkg : String
  name : String
  value : String
  declaredType : String
deriving DecidableEq

/-- The qualified name of a declared constant: package and identifier joined
by a single separator. -/
def cQualified (c : ConstFact) : String :=
  c.pkg ++ "." ++ c.name

/-- A mismatch finding (`MismatchRecord`). -/
structure Mismatch where
  methodName : String
  channelConstant : String
  declaredType : String
  inferredType : String
deriving DecidableEq

/-- The call-site facts among a fact list. -/
def callSiteFactsOf (fs : List Fact) : List CallSiteFact :=
  fs.filterMap (fun f =>
    match f with
    | .callsite a b c d => some ⟨a, b, c, d⟩
    | _ => none)

/-- The constant-declaration facts among a fact list. -/
def constFactsOf (fs : List Fact) : List ConstFact :=
  fs.filterMap (fun f =>
    match f with
    | .constDecl p n v h => some ⟨p, n, v, h⟩
    | _ => none)

/-- A character that may occur in a Go identifier (letters, digits, underscore;
the sources under analysis are ASCII). -/
def isIdentChar (c : Char) : Bool := c.isAlphanum || c == '_'

/-- Modelled from the spec: resolvedness of an inferred or declared type value.
The specification's Correlation Engine and `InferredType` contract are not
implemented under src/ (the join is an external pipeline), and they require
that "any value that is not a recognizable two-part qualified type name must be
treated by callers as unresolved".  A resolved value is therefore
`identifier.identifier`. -/
def isResolvedTypeName (s : String) : Bool :=
  match s.data.dropWhile isIdentChar with
  | '.' :: rest =>
    decide (s.data.takeWhile isIdentChar ≠ []) && decide (rest ≠ []) && rest.all isIdentChar
  | _ => false

/-- Modelled from the spec: the Correlation Engine's treatment of one call site
(spec section 4.3), missing from src/ (the deployment performs this join in an
external shell pipeline).  The recorded call-site fact already carries the
channel constant its method name was bound to, so the remaining join finds the
declared constant with that qualified name; a mismatch is emitted only when
both type values are resolved and unequal. -/
def correlateOne (consts : List ConstFact) (cs : CallSiteFact) : Option Mismatch :=
  match consts.find? (fun c => cQualified c == cs.channel) with
  | some c =>
    if isResolvedTypeName cs.inferred && isResolvedTypeName c.declaredType
        && cs.inferred != c.declaredType then
      some ⟨cs.meth, cs.channel, c.declaredType, cs.inferred⟩
    else none
  | none => none

/-- Modelled from the spec: the Correlation Engine over the merged tables. -/
def correlate (consts : List ConstFact) (css : List CallSiteFact) : List Mismatch :=
  css.filterMap (correlateOne consts)

/-- The mismatch findings of an analysis run. -/
def mismatchesOf (pkg : String) (files : List GFile) : List Mismatch :=
  correlate (constFactsOf (run pkg files)) (callSiteFactsOf (run pkg files))

/-- Concrete scenario file: an event constant with a trailing type annotation,
a struct literal binding the `notify` field through `rabbitEvents.Emit`, and a
later call `s.notify(rabbitEvents.Create, payload)` whose final argument is a
parameter of type `*pkg.BarPayload` (a field declaration object). -/
def scenarioFile : GFile :=
  [ GTree.constDecl
      [⟨"EventFoo", some [.basicLit ("\"foo.bar\"")], some ("// pkg.FooPayload")⟩],
    GTree.exprT
      (.composite .structLit
        [.keyValue (.ident ("notify") none)
          (.call (.selector (.ident ("rabbitEvents") none) ("Emit"))
            [.selector (.ident ("types") none) ("EventFoo")])]),
    GTree.exprT
      (.call (.selector (.ident ("s") none) ("notify"))
        [.selector (.ident ("rabbitEvents") none) ("Create"),
         .ident ("payload")
           (some (.mk (.fieldDecl
             (.mk [("payload")]
               (.star (.selector (.ident ("pkg") none) ("BarPayload")))))))])]

example : runFile ("types") scenarioFile =
    [ Fact.constDecl ("types") ("EventFoo") ("\"foo.bar\"") ("pkg.FooPayload"),
      Fact.binding ("notify") ("types.EventFoo"),
      Fact.callsite ("s") ("notify") ("pkg.BarPayload") ("types.EventFoo")] := by
  decide

example : mismatchesOf ("types") [scenarioFile] =
    [⟨("notify"), ("types.EventFoo"), ("pkg.FooPayload"), ("pkg.BarPayload")⟩] := by
  decide

/-- Every declaration object has positive size. -/
theorem osizeO_pos (o : Option GObj) : 1 ≤ osizeO o := by
  cases o with
  | none => simp [osizeO]
  | some ob => simp [osizeO]

/-- Unfolding equation for the one branch of `typeFromObjFuel` that consumes
fuel: an assignment whose first right-hand side is a call through a plain
identifier callee. -/
theorem typeFromObjFuel_assign_call_ident (n : Nat) (l : String) (lo : Option GObj)
    (lr : List GExpr) (f : String) (fobj : Option GObj) (args rr : List GExpr)
    (tag : String) :
    typeFromObjFuel (n + 1)
        (some (.mk (.assignStmt (.ident l lo) lr (.call (.ident f fobj) args) rr))) tag
      = match typeFromObjFuel n fobj (tag ++ "-rhs-obj") with
        | some t => some t
        | none => some (mkPlaceholder tag ("*ast.AssignStmt")) := rfl

/-- Fuel irrelevance: any two fuel values at least the size of the declaration
object compute the same result, so the recursion of `typeFromObj` is bounded by
the size of its argument. -/
theorem typeFromObjFuel_congr :
    ∀ (n m : Nat) (o : Option GObj) (tag : String),
      osizeO o ≤ n → osizeO o ≤ m →
      typeFromObjFuel n o tag = typeFromObjFuel m o tag := by
  intro n
  induction n using Nat.strong_induction_on with
  | _ n ih =>
    intro m o tag hn hm
    match n, m with
    | 0, _ => exact absurd (le_trans (osizeO_pos o) hn) (by omega)
    | _ + 1, 0 => exact absurd (le_trans (osizeO_pos o) hm) (by omega)
    | n' + 1, m' + 1 =>
      cases o with
      | none => rfl
      | some ob =>
        cases ob with
        | mk d =>
          show typeFromObjBody (typeFromObjFuel n') d tag
              = typeFromObjBody (typeFromObjFuel m') d tag
          unfold typeFromObjBody
          split <;> try rfl
          split <;> try rfl
          split <;> try rfl
          split <;> try rfl
          rename_i fname fobj heq
          have hfn : osizeO fobj ≤ n' ∧ osizeO fobj ≤ m' := by
            constructor
            · simp [osizeO, osize, dsize, esize, elsize] at hn
              omega
            · simp [osizeO, osize, dsize, esize, elsize] at hm
              omega
          rw [ih n' (by omega) m' fobj (tag ++ "-rhs-obj") hfn.1 hfn.2]

/-- With nonzero fuel, a present declaration object always resolves to some
string: every branch of the resolver produces a value, degrading to the
synthetic placeholder when no rule matches. -/
theorem typeFromObjFuel_isSome (n : Nat) (ob : GObj) (tag : String) :
    (typeFromObjFuel (n + 1) (some ob) tag).isSome = true := by
  cases ob with
  | mk d =>
    show (typeFromObjBody (typeFromObjFuel n) d tag).isSome = true
    unfold typeFromObjBody
    split <;> try rfl
    all_goals split <;> try rfl
    all_goals split <;> try rfl
    all_goals split <;> try rfl
    all_goals split <;> rfl

/-- C6: the Type Resolver fails (returns an error) if and only if the
declaration object it is given is absent (nil); for every present declaration
object it returns some type string without error, degrading to the synthetic
placeholder rather than failing when no resolution rule matches. -/
theorem C6_fails_iff_absent (o : Option GObj) (tag : String) :
    typeFromObj o tag = none ↔ o = none := by
  cases o with
  | none => simp [typeFromObj, osizeO, typeFromObjFuel]
  | some ob =>
    constructor
    · intro hc
      have h := typeFromObjFuel_isSome (osize ob) ob tag
      rw [show typeFromObj (some ob) tag
          = typeFromObjFuel (osize ob + 1) (some ob) tag from rfl] at hc
      rw [hc] at h
      simp at h
    · intro hc
      simp at hc

/-- C7: the Type Resolver terminates on every input declaration object; its
recursion is bounded by the size of the object, in that any fuel of at least
`osizeO o` already computes the final value `typeFromObj o tag`, so resolving
a declaration chain cannot loop forever. -/
theorem C7_resolver_bounded (o : Option GObj) (tag : String) (n : Nat)
    (h : osizeO o ≤ n) :
    typeFromObjFuel n o tag = typeFromObj o tag :=
  typeFromObjFuel_congr n (osizeO o) o tag h (le_refl _)

/-- A function declaration object returning `*types.Settings`. -/
def c9fobj : Option GObj :=
  some (.mk (.funcDecl (some [.mk []
    (.star (.selector (.ident ("types") none) ("Settings")))])))

/-- A declaration chain: `settings := newSettings()` where `newSettings` is
declared as a function returning `*types.Settings`. -/
def c7obj : Option GObj :=
  some (.mk (.assignStmt (.ident ("settings") none) []
    (.call (.ident ("newSettings") c9fobj) []) []))

/-- Witness for C7 at a concrete two-hop declaration chain. -/
theorem C7_resolver_bounded_witness :
    osizeO c7obj ≤ 30
    ∧ typeFromObjFuel 30 c7obj ("userEvent") = typeFromObj c7obj ("userEvent") :=
  ⟨by decide, C7_resolver_bounded c7obj ("userEvent") 30 (by decide)⟩

/-- C8: for an assignment declaration whose first right-hand side is a plain
identifier, the resolver recursively resolves that identifier's declaration
(here: to `q`) but does not propagate the resolved value back to the caller;
the caller receives the synthetic placeholder built from the tag instead. -/
theorem C8_no_propagation (tag l r : String) (lo robj : Option GObj)
    (lr rr : List GExpr) (q : String)
    (hq : typeFromObj robj (tag ++ "-rhs") = some q)
    (hne : q ≠ mkPlaceholder tag ("*ast.AssignStmt")) :
    typeFromObj (some (.mk (.assignStmt (.ident l lo) lr (.ident r robj) rr))) tag
        = some (mkPlaceholder tag ("*ast.AssignStmt"))
    ∧ typeFromObj (some (.mk (.assignStmt (.ident l lo) lr (.ident r robj) rr))) tag
        ≠ some q := by
  have h1 : typeFromObj (some (.mk (.assignStmt (.ident l lo) lr (.ident r robj) rr))) tag
      = some (mkPlaceholder tag ("*ast.AssignStmt")) := rfl
  refine ⟨h1, ?_⟩
  rw [h1]
  intro hcontra
  injection hcontra with h
  exact hne h.symm

/-- A field declaration object of type `*types.Settings`, the declaration of
the right-hand-side identifier in the C8 witness. -/
def c8robj : Option GObj :=
  some (.mk (.fieldDecl (.mk [("s2")]
    (.star (.selector (.ident ("types") none) ("Settings"))))))

/-- Witness for C8: the right-hand-side identifier resolves to
`types.Settings`, yet the assignment declaration resolves to the placeholder. -/
theorem C8_no_propagation_witness :
    (typeFromObj c8robj ("userEvent" ++ "-rhs") = some ("types.Settings")
      ∧ ("types.Settings") ≠ mkPlaceholder ("userEvent") ("*ast.AssignStmt"))
    ∧ (typeFromObj (some (.mk (.assignStmt (.ident ("settings") none) []
          (.ident ("s2") c8robj) []))) ("userEvent")
        = some (mkPlaceholder ("userEvent") ("*ast.AssignStmt"))
      ∧ typeFromObj (some (.mk (.assignStmt (.ident ("settings") none) []
          (.ident ("s2") c8robj) []))) ("userEvent")
        ≠ some ("types.Settings")) :=
  ⟨⟨by decide, by decide⟩,
    C8_no_propagation ("userEvent") ("settings") ("s2") none c8robj [] []
      ("types.Settings") (by decide) (by decide)⟩

/-- C9: for an assignment declaration whose first right-hand side is a call
through a plain (unqualified) function identifier, the resolver recursively
resolves that function's own declaration and returns the resolved type
directly to the caller: the one propagating transitive case. -/
theorem C9_call_ident_propagates (tag l f : String) (lo fobj : Option GObj)
    (lr rr args : List GExpr) (t : String)
    (ht : typeFromObj fobj (tag ++ "-rhs-obj") = some t) :
    typeFromObj (some (.mk (.assignStmt (.ident l lo) lr
        (.call (.ident f fobj) args) rr))) tag = some t := by
  have hsz : osizeO fobj
      ≤ osize (GObj.mk (.assignStmt (.ident l lo) lr
          (.call (.ident f fobj) args) rr)) := by
    simp [osizeO, osize, dsize, esize, elsize]
    omega
  have hc : typeFromObjFuel
        (osize (GObj.mk (.assignStmt (.ident l lo) lr
          (.call (.ident f fobj) args) rr))) fobj (tag ++ "-rhs-obj")
      = typeFromObj fobj (tag ++ "-rhs-obj") :=
    typeFromObjFuel_congr _ _ _ _ hsz (le_refl _)
  have kk : typeFromObj (some (.mk (.assignStmt (.ident l lo) lr
        (.call (.ident f fobj) args) rr))) tag
      = typeFromObjFuel
          (osize (GObj.mk (.assignStmt (.ident l lo) lr
            (.call (.ident f fobj) args) rr)) + 1)
          (some (.mk (.assignStmt (.ident l lo) lr
            (.call (.ident f fobj) args) rr))) tag := rfl
  rw [kk, typeFromObjFuel_assign_call_ident, hc, ht]

/-- Witness for C9: `settings := newSettings()` resolves to the function's
declared result type `types.Settings`. -/
theorem C9_call_ident_propagates_witness :
    typeFromObj c9fobj ("userEvent" ++ "-rhs-obj") = some ("types.Settings")
    ∧ typeFromObj (some (.mk (.assignStmt (.ident ("settings") none) []
        (.call (.ident ("newSettings") c9fobj) []) []))) ("userEvent")
      = some ("types.Settings") :=
  ⟨by decide,
    C9_call_ident_propagates ("userEvent") ("settings") ("newSettings") none c9fobj
      [] [] [] ("types.Settings") (by decide)⟩

/-- C2: for a constant spec whose first initializer is a literal and whose
name starts with the configured `Event` prefix, the recorded fact carries a
declared type equal to the trailing comment stripped of the leading comment
marker and the whitespace around it when a comment is present, and equal to
the `types.UnknownEventType` sentinel when no comment is present. -/
theorem C2_const_declared_type (pkg : String) (em : List (String × String))
    (specs : List GSpec) (q : GSpec) (bv : String) (vrest : List GExpr)
    (hq : q ∈ specs)
    (hv : q.values = some (.basicLit bv :: vrest))
    (hp : ("Event").data.isPrefixOf q.name0.data = true) :
    (∀ ctext, q.comment = some ctext →
      constFactOfSpec pkg q
          = some (.constDecl pkg q.name0 bv (commentStrip ctext))
      ∧ Fact.constDecl pkg q.name0 bv (commentStrip ctext)
          ∈ (stepNode pkg em (.vconst specs)).2)
    ∧ (q.comment = none →
      constFactOfSpec pkg q
          = some (.constDecl pkg q.name0 bv ("types.UnknownEventType"))
      ∧ Fact.constDecl pkg q.name0 bv ("types.UnknownEventType")
          ∈ (stepNode pkg em (.vconst specs)).2) := by
  constructor
  · intro ctext hcom
    have heq : constFactOfSpec pkg q
        = some (.constDecl pkg q.name0 bv (commentStrip ctext)) := by
      unfold constFactOfSpec
      rw [hv, hcom]
      simp [hp]
    refine ⟨heq, ?_⟩
    simp only [stepNode, List.mem_filterMap]
    exact ⟨q, hq, heq⟩
  · intro hcom
    have heq : constFactOfSpec pkg q
        = some (.constDecl pkg q.name0 bv ("types.UnknownEventType")) := by
      unfold constFactOfSpec
      rw [hv, hcom]
      simp [hp]
    refine ⟨heq, ?_⟩
    simp only [stepNode, List.mem_filterMap]
    exact ⟨q, hq, heq⟩

example : commentStrip ("//  pkg.FooPayload ") = "pkg.FooPayload " := by decide

example : commentStrip ("  \t// pkg.X") = "pkg.X" := by decide

example : commentStrip ("plain text") = "plain text" := by decide

/-- The constant spec used by the C2 witness: a commented event constant. -/
def c2spec : GSpec :=
  ⟨"EventFoo", some [.basicLit ("\"foo.bar\"")], some ("//  pkg.FooPayload ")⟩

/-- Witness for C2 at a spec with a trailing comment containing extra
whitespace (its stripped content keeps the trailing space: the anchored
pattern only strips around the leading marker). -/
theorem C2_const_declared_type_witness :
    (c2spec ∈ [c2spec]
      ∧ c2spec.values = some [.basicLit ("\"foo.bar\"")]
      ∧ ("Event").data.isPrefixOf c2spec.name0.data = true)
    ∧ ((∀ ctext, c2spec.comment = some ctext →
        constFactOfSpec ("types") c2spec
            = some (.constDecl ("types") c2spec.name0 ("\"foo.bar\"") (commentStrip ctext))
        ∧ Fact.constDecl ("types") c2spec.name0 ("\"foo.bar\"") (commentStrip ctext)
            ∈ (stepNode ("types") [] (.vconst [c2spec])).2)
      ∧ (c2spec.comment = none →
        constFactOfSpec ("types") c2spec
            = some (.constDecl ("types") c2spec.name0 ("\"foo.bar\"") ("types.UnknownEventType"))
        ∧ Fact.constDecl ("types") c2spec.name0 ("\"foo.bar\"") ("types.UnknownEventType")
            ∈ (stepNode ("types") [] (.vconst [c2spec])).2)) :=
  ⟨⟨by simp, rfl, by decide⟩,
    C2_const_declared_type ("types") [] [c2spec] c2spec
      ("\"foo.bar\"") [] (by simp) rfl (by decide)⟩

/-- C3: a recognized emitter-binding pattern records a channel constant equal
to the qualified name formed from the first argument's receiver identifier and
its selector joined by exactly one separator, both in the emitted fact and in
the emitters table. -/
theorem C3_binding_channel (pkg : String) (em : List (String × String))
    (i : String) (iobj : Option GObj) (fn : GExpr) (fp : String × String)
    (arest : List GExpr) (ai ase : String) (aobj : Option GObj)
    (hfn : selectorParts fn = some fp) :
    stepNode pkg em (.vexpr (.keyValue (.ident i iobj)
        (.call fn (GExpr.selector (.ident ai aobj) ase :: arest))))
      = ((i, ai ++ "." ++ ase) :: em, [Fact.binding i (ai ++ "." ++ ase)]) := by
  have ha : selectorParts (GExpr.selector (.ident ai aobj) ase) = some (ai, ase) := rfl
  simp [stepNode, hfn, ha]

/-- Witness for C3 at the scenario binding. -/
theorem C3_binding_channel_witness :
    selectorParts (.selector (.ident ("rabbitEvents") none) ("Emit"))
      = some (("rabbitEvents"), ("Emit"))
    ∧ stepNode ("types") [] (.vexpr (.keyValue (.ident ("notify") none)
        (.call (.selector (.ident ("rabbitEvents") none) ("Emit"))
          [GExpr.selector (.ident ("types") none) ("EventFoo")])))
      = ([(("notify"), ("types") ++ "." ++ ("EventFoo"))],
         [Fact.binding ("notify") (("types") ++ "." ++ ("EventFoo"))]) :=
  ⟨by decide,
    C3_binding_channel ("types") [] ("notify") none
      (.selector (.ident ("rabbitEvents") none) ("Emit"))
      (("rabbitEvents"), ("Emit")) [] ("types") ("EventFoo") none (by decide)⟩

/-- C5: a call expression whose final argument is not a plain identifier
records no call-site fact at all (only the last positional argument is
inspected, and only when it is a plain identifier); the emitters table is
also left unchanged. -/
theorem C5_last_arg_only (pkg : String) (em : List (String × String))
    (fn : GExpr) (args : List GExpr) (a : GExpr)
    (hlast : args.getLast? = some a)
    (hni : ∀ (nm : String) (o : Option GObj), a ≠ .ident nm o) :
    stepNode pkg em (.vexpr (.call fn args)) = (em, []) := by
  cases hsp : selectorParts fn with
  | none => simp [stepNode, hsp]
  | some fp =>
    obtain ⟨fi, fse⟩ := fp
    cases a with
    | ident nm o => exact absurd rfl (hni nm o)
    | selector x s => simp [stepNode, hsp, hlast]
    | call f as => simp [stepNode, hsp, hlast]
    | basicLit v => simp [stepNode, hsp, hlast]
    | star x => simp [stepNode, hsp, hlast]
    | keyValue k v => simp [stepNode, hsp, hlast]
    | composite ck es => simp [stepNode, hsp, hlast]
    | otherExpr => simp [stepNode, hsp, hlast]

/-- Witness for C5: the final argument is itself a call (Scenario B). -/
theorem C5_last_arg_only_witness :
    ([GExpr.call (.ident ("updateUserSettings") none) []].getLast?
        = some (GExpr.call (.ident ("updateUserSettings") none) []))
    ∧ stepNode ("svc") [(("userEvent"), ("types.EventFoo"))]
        (.vexpr (.call (.selector (.ident ("s") none) ("userEvent"))
          [GExpr.call (.ident ("updateUserSettings") none) []]))
      = ([(("userEvent"), ("types.EventFoo"))], []) :=
  ⟨rfl,
    C5_last_arg_only ("svc") [(("userEvent"), ("types.EventFoo"))]
      (.selector (.ident ("s") none) ("userEvent"))
      [GExpr.call (.ident ("updateUserSettings") none) []]
      (GExpr.call (.ident ("updateUserSettings") none) [])
      rfl (fun nm o h => by cases h)⟩

/-- Inversion for `selectorParts`: success forces the selector-over-identifier
shape. -/
theorem selectorParts_eq_some (e : GExpr) (p : String × String)
    (h : selectorParts e = some p) :
    ∃ aobj, e = .selector (.ident p.1 aobj) p.2 := by
  unfold selectorParts at h
  split at h
  · rename_i i obj sel
    injection h with h2
    subst h2
    exact ⟨obj, rfl⟩
  · exact absurd h (by simp)

/-- Every fact produced by the constant handler is a constant-declaration
fact for the spec's first name. -/
theorem constFactOfSpec_shape (pkg : String) (q : GSpec) (f : Fact)
    (h : constFactOfSpec pkg q = some f) :
    ∃ bv hint, f = .constDecl pkg q.name0 bv hint := by
  cases hv : q.values with
  | none => simp [constFactOfSpec, hv] at h
  | some vs =>
    cases vs with
    | nil => simp [constFactOfSpec, hv] at h
    | cons v0 vrest =>
      cases v0 with
      | basicLit bv =>
        by_cases hp : ("Event").data.isPrefixOf q.name0.data = true
        · simp [constFactOfSpec, hv, hp] at h
          exact ⟨bv, _, h.symm⟩
        · simp [constFactOfSpec, hv, hp] at h
      | ident a b => simp [constFactOfSpec, hv] at h
      | selector a b => simp [constFactOfSpec, hv] at h
      | call a b => simp [constFactOfSpec, hv] at h
      | star a => simp [constFactOfSpec, hv] at h
      | keyValue a b => simp [constFactOfSpec, hv] at h
      | composite a b => simp [constFactOfSpec, hv] at h
      | otherExpr => simp [constFactOfSpec, hv] at h

/-- The field handler leaves the table unchanged and records at most one
field-emitter fact. -/
theorem stepNode_vfield (pkg : String) (st : List (String × String))
    (names : List String) (ty : GExpr) :
    stepNode pkg st (.vfield names ty) = (st, [])
    ∨ ∃ n0, stepNode pkg st (.vfield names ty) = (st, [.fieldEmitter n0]) := by
  cases names with
  | nil => left; rfl
  | cons n0 rest =>
    cases hsp : selectorParts ty with
    | none => left; simp [stepNode, hsp]
    | some p =>
      obtain ⟨i, se⟩ := p
      by_cases hc : (i == "rabbitEvents" && se == "EventEmitter") = true
      · right; exact ⟨n0, by simp [stepNode, hsp, hc]⟩
      · left; simp [stepNode, hsp, hc]

/-- Case analysis of one handler step: it records exactly one emitter binding
(for the recognized key/value shape, extending the table), or exactly one
call-site fact backed by a successful lookup of the method name in the table
(table unchanged), or no binding and no call-site fact with the table
unchanged. -/
theorem stepNode_spec (pkg : String) (st : List (String × String)) (nd : VisitNode) :
    (∃ i iobj fn a0 arest ai ase aobj fp,
        nd = .vexpr (.keyValue (.ident i iobj) (.call fn (a0 :: arest)))
        ∧ selectorParts fn = some fp
        ∧ a0 = GExpr.selector (.ident ai aobj) ase
        ∧ stepNode pkg st nd = ((i, ai ++ "." ++ ase) :: st, [.binding i (ai ++ "." ++ ase)]))
    ∨ (∃ fi fse t v, stepNode pkg st nd = (st, [.callsite fi fse t v])
        ∧ lookupE st fse = some v)
    ∨ ((stepNode pkg st nd).1 = st
        ∧ (∀ l c, Fact.binding l c ∉ (stepNode pkg st nd).2)
        ∧ (∀ fi fse t v, Fact.callsite fi fse t v ∉ (stepNode pkg st nd).2)) := by
  have third : stepNode pkg st nd = (st, ([] : List Fact)) →
      (stepNode pkg st nd).1 = st
        ∧ (∀ l c, Fact.binding l c ∉ (stepNode pkg st nd).2)
        ∧ (∀ fi fse t v, Fact.callsite fi fse t v ∉ (stepNode pkg st nd).2) := by
    intro h
    rw [h]
    exact ⟨rfl, by simp, by simp⟩
  cases nd with
  | vother => exact Or.inr (Or.inr (third rfl))
  | vconst specs =>
    right; right
    refine ⟨rfl, ?_, ?_⟩
    · intro l c hmem
      simp only [stepNode, List.mem_filterMap] at hmem
      obtain ⟨q, _, hq⟩ := hmem
      obtain ⟨bv, hint, hshape⟩ := constFactOfSpec_shape pkg q _ hq
      exact Fact.noConfusion hshape
    · intro fi fse t v hmem
      simp only [stepNode, List.mem_filterMap] at hmem
      obtain ⟨q, _, hq⟩ := hmem
      obtain ⟨bv, hint, hshape⟩ := constFactOfSpec_shape pkg q _ hq
      exact Fact.noConfusion hshape
  | vfield names ty =>
    rcases stepNode_vfield pkg st names ty with h | ⟨n0, h⟩
    · exact Or.inr (Or.inr (third h))
    · right; right
      rw [h]
      exact ⟨rfl, by simp, by simp⟩
  | vexpr e =>
    cases e with
    | ident nm o => exact Or.inr (Or.inr (third rfl))
    | basicLit v => exact Or.inr (Or.inr (third rfl))
    | star x => exact Or.inr (Or.inr (third rfl))
    | composite ck es => exact Or.inr (Or.inr (third rfl))
    | selector x s => exact Or.inr (Or.inr (third rfl))
    | otherExpr => exact Or.inr (Or.inr (third rfl))
    | keyValue k v =>
      cases k with
      | ident i iobj =>
        cases v with
        | call fn args =>
          cases hsp : selectorParts fn with
          | none => exact Or.inr (Or.inr (third (by simp [stepNode, hsp])))
          | some fp =>
            cases args with
            | nil => exact Or.inr (Or.inr (third (by simp [stepNode, hsp])))
            | cons a0 arest =>
              cases hsa : selectorParts a0 with
              | none => exact Or.inr (Or.inr (third (by simp [stepNode, hsp, hsa])))
              | some pa =>
                obtain ⟨ai, ase⟩ := pa
                obtain ⟨aobj, ha0⟩ := selectorParts_eq_some a0 (ai, ase) hsa
                exact Or.inl ⟨i, iobj, fn, a0, arest, ai, ase, aobj, fp, rfl, hsp, ha0,
                  by simp [stepNode, hsp, hsa]⟩
        | ident a b => exact Or.inr (Or.inr (third rfl))
        | selector a b => exact Or.inr (Or.inr (third rfl))
        | basicLit a => exact Or.inr (Or.inr (third rfl))
        | star a => exact Or.inr (Or.inr (third rfl))
        | keyValue a b => exact Or.inr (Or.inr (third rfl))
        | composite a b => exact Or.inr (Or.inr (third rfl))
        | otherExpr => exact Or.inr (Or.inr (third rfl))
      | selector a b => exact Or.inr (Or.inr (third rfl))
      | call a b => exact Or.inr (Or.inr (third rfl))
      | basicLit a => exact Or.inr (Or.inr (third rfl))
      | star a => exact Or.inr (Or.inr (third rfl))
      | keyValue a b => exact Or.inr (Or.inr (third rfl))
      | composite a b => exact Or.inr (Or.inr (third rfl))
      | otherExpr => exact Or.inr (Or.inr (third rfl))
    | call fn args =>
      cases hsp : selectorParts fn with
      | none => exact Or.inr (Or.inr (third (by simp [stepNode, hsp])))
      | some fp =>
        obtain ⟨fi, fse⟩ := fp
        cases hlast : args.getLast? with
        | none => exact Or.inr (Or.inr (third (by simp [stepNode, hsp, hlast])))
        | some a =>
          cases a with
          | ident an aobj =>
            cases ht : typeFromObj aobj fse with
            | none => exact Or.inr (Or.inr (third (by simp [stepNode, hsp, hlast, ht])))
            | some t =>
              cases hv : lookupE st fse with
              | none => exact Or.inr (Or.inr (third (by simp [stepNode, hsp, hlast, ht, hv])))
              | some v =>
                exact Or.inr (Or.inl ⟨fi, fse, t, v,
                  by simp [stepNode, hsp, hlast, ht, hv], hv⟩)
          | selector a b => exact Or.inr (Or.inr (third (by simp [stepNode, hsp, hlast])))
          | call a b => exact Or.inr (Or.inr (third (by simp [stepNode, hsp, hlast])))
          | basicLit a => exact Or.inr (Or.inr (third (by simp [stepNode, hsp, hlast])))
          | star a => exact Or.inr (Or.inr (third (by simp [stepNode, hsp, hlast])))
          | keyValue a b => exact Or.inr (Or.inr (third (by simp [stepNode, hsp, hlast])))
          | composite a b => exact Or.inr (Or.inr (third (by simp [stepNode, hsp, hlast])))
          | otherExpr => exact Or.inr (Or.inr (third (by simp [stepNode, hsp, hlast])))

/-- A lookup in the table extended by one step either succeeded already or is
the binding the step just recorded. -/
theorem stepNode_lookup (pkg : String) (st : List (String × String))
    (nd : VisitNode) (k v : String)
    (h : lookupE (stepNode pkg st nd).1 k = some v) :
    lookupE st k = some v ∨ Fact.binding k v ∈ (stepNode pkg st nd).2 := by
  rcases stepNode_spec pkg st nd with
      ⟨i, iobj, fn, a0, arest, ai, ase, aobj, fp, hnd, hfn, ha0, heq⟩
    | ⟨fi, fse, t, v2, heq, _⟩
    | ⟨h1, _, _⟩
  · rw [heq] at h ⊢
    by_cases hk : (i == k) = true
    · simp only [lookupE, List.find?] at h
      rw [hk] at h
      simp at h hk
      subst hk
      right
      simp [h]
    · left
      rw [Bool.not_eq_true] at hk
      simp only [lookupE, List.find?] at h
      rw [hk] at h
      exact h
  · rw [heq] at h
    exact Or.inl h
  · rw [h1] at h
    exact Or.inl h

/-- Ordering invariant of the per-file fold: any call-site fact in the output
has its emitter binding either already justified by the incoming table (whose
bindings all occur in `seen`) or recorded earlier in the output. -/
theorem processNodes_callsite_take (pkg : String) :
    ∀ (ns : List VisitNode) (st : List (String × String)) (seen : List Fact),
      (∀ k v, lookupE st k = some v → Fact.binding k v ∈ seen) →
      ∀ (i : Nat) (fi fse t v : String),
        (processNodes pkg st ns).get? i = some (.callsite fi fse t v) →
        Fact.binding fse v ∈ seen ++ (processNodes pkg st ns).take i := by
  intro ns
  induction ns with
  | nil =>
    intro st seen hinv i fi fse t v h
    simp [processNodes] at h
  | cons n ns ih =>
    intro st seen hinv i fi fse t v h
    have hstep : processNodes pkg st (n :: ns)
        = (stepNode pkg st n).2 ++ processNodes pkg (stepNode pkg st n).1 ns := rfl
    rw [hstep] at h ⊢
    by_cases hi : i < (stepNode pkg st n).2.length
    · -- the call-site fact is produced by this very step
      rw [List.get?_append hi] at h
      have hmem : Fact.callsite fi fse t v ∈ (stepNode pkg st n).2 :=
        List.get?_mem h
      rcases stepNode_spec pkg st n with
          ⟨i2, iobj, fn, a0, arest, ai, ase, aobj, fp, hnd, hfn, ha0, heq⟩
        | ⟨fi2, fse2, t2, v2, heq, hlook⟩
        | ⟨_, _, hnc⟩
      · rw [heq] at hmem
        simp at hmem
      · rw [heq] at hmem
        simp at hmem
        obtain ⟨_, h2, _, h4⟩ := hmem
        subst h2
        subst h4
        exact List.mem_append_left _ (hinv _ _ hlook)
      · exact absurd hmem (hnc fi fse t v)
    · -- the call-site fact comes from the tail of the traversal
      push_neg at hi
      rw [List.get?_append_right hi] at h
      have hinv2 : ∀ k v, lookupE (stepNode pkg st n).1 k = some v →
          Fact.binding k v ∈ seen ++ (stepNode pkg st n).2 := by
        intro k v hk
        rcases stepNode_lookup pkg st n k v hk with hold | hnew
        · exact List.mem_append_left _ (hinv _ _ hold)
        · exact List.mem_append_right _ hnew
      have hmm := ih (stepNode pkg st n).1 (seen ++ (stepNode pkg st n).2) hinv2
        (i - (stepNode pkg st n).2.length) fi fse t v h
      rw [List.append_assoc] at hmm
      rw [List.take_append_eq_append_take, List.take_of_length_le hi]
      exact hmm

/-- Any call-site fact of a file has a matching binding fact strictly earlier
in the same file's fact list. -/
theorem runFile_callsite_earlier (pkg : String) (f : GFile) (i : Nat)
    (fi fse t v : String)
    (h : (runFile pkg f).get? i = some (.callsite fi fse t v)) :
    Fact.binding fse v ∈ (runFile pkg f).take i := by
  have := processNodes_callsite_take pkg (fileNodes f) [] []
    (by intro k v hk; simp [lookupE] at hk) i fi fse t v h
  simpa using this

/-- Any call-site fact of a file is preceded by a matching binding fact, hence
that binding fact is in the same file's fact list. -/
theorem runFile_callsite_binding (pkg : String) (f : GFile)
    (fi fse t v : String)
    (h : Fact.callsite fi fse t v ∈ runFile pkg f) :
    Fact.binding fse v ∈ runFile pkg f := by
  obtain ⟨i, hi⟩ := List.mem_iff_get?.mp h
  exact List.take_subset i _ (runFile_callsite_earlier pkg f i fi fse t v hi)

/-- Any call-site fact of a run is matched by a binding fact of the run. -/
theorem run_callsite_binding (pkg : String) (files : List GFile)
    (fi fse t v : String)
    (h : Fact.callsite fi fse t v ∈ run pkg files) :
    Fact.binding fse v ∈ run pkg files := by
  induction files with
  | nil => simp [run] at h
  | cons f fs ih =>
    simp only [run, List.mem_append] at h ⊢
    rcases h with h | h
    · exact Or.inl (runFile_callsite_binding pkg f fi fse t v h)
    · exact Or.inr (ih h)

/-- The run is the concatenation of the per-file extractions. -/
theorem run_eq_join (pkg : String) (files : List GFile) :
    run pkg files = (files.map (runFile pkg)).join := by
  induction files with
  | nil => rfl
  | cons f fs ih => simp [run, ih]

/-- C10: the emitter table consulted when matching a call site is created
fresh for each file (the run is exactly the concatenation of independent
per-file extractions) and is written only during that file's traversal: a
call-site fact is emitted only when its method name matches a binding fact
recorded strictly earlier in the traversal of the same file. -/
theorem C10_per_file_table (pkg : String) (files : List GFile) (f : GFile)
    (i : Nat) (fi fse t v : String)
    (hcs : (runFile pkg f).get? i = some (.callsite fi fse t v)) :
    run pkg files = (files.map (runFile pkg)).join
    ∧ Fact.binding fse v ∈ (runFile pkg f).take i :=
  ⟨run_eq_join pkg files,
    runFile_callsite_earlier pkg f i fi fse t v hcs⟩

/-- Witness for C10 at the scenario file: the call-site fact at index 2 is
preceded by its binding fact. -/
theorem C10_per_file_table_witness :
    (runFile ("types") scenarioFile).get? 2
      = some (.callsite ("s") ("notify") ("pkg.BarPayload") ("types.EventFoo"))
    ∧ (run ("types") [scenarioFile, scenarioFile]
        = ([scenarioFile, scenarioFile].map (runFile ("types"))).join
      ∧ Fact.binding ("notify") ("types.EventFoo")
          ∈ (runFile ("types") scenarioFile).take 2) :=
  ⟨by decide,
    C10_per_file_table ("types") [scenarioFile, scenarioFile] scenarioFile 2
      ("s") ("notify") ("pkg.BarPayload") ("types.EventFoo") (by decide)⟩

mutual
/-- Whether an expression contains a composite literal written with struct
syntax anywhere in its syntactic structure. -/
def exprHasStructLit : GExpr → Bool
  | .ident _ _ => false
  | .selector x _ => exprHasStructLit x
  | .call f as => exprHasStructLit f || exprListHasStructLit as
  | .basicLit _ => false
  | .star x => exprHasStructLit x
  | .keyValue k v => exprHasStructLit k || exprHasStructLit v
  | .composite ck es => ck == CompKind.structLit || exprListHasStructLit es
  | .otherExpr => false

/-- Whether any expression of a list contains a struct literal. -/
def exprListHasStructLit : List GExpr → Bool
  | [] => false
  | e :: es => exprHasStructLit e || exprListHasStructLit es
end

/-- Whether a spec's initializers contain a struct literal. -/
def specHasStructLit (q : GSpec) : Bool :=
  match q.values with
  | some vs => exprListHasStructLit vs
  | none => false

mutual
/-- Whether a tree contains a struct literal. -/
def treeHasStructLit : GTree → Bool
  | .exprT e => exprHasStructLit e
  | .fieldT _ ty => exprHasStructLit ty
  | .constDecl specs => specs.any specHasStructLit
  | .varDecl specs => specs.any specHasStructLit
  | .block ts => treeListHasStructLit ts

/-- Whether any tree of a list contains a struct literal. -/
def treeListHasStructLit : List GTree → Bool
  | [] => false
  | t :: ts => treeHasStructLit t || treeListHasStructLit ts
end

/-- Whether a file contains a struct literal anywhere. -/
def fileHasStructLit (f : GFile) : Bool :=
  treeListHasStructLit f

/-- A file whose only key/value pair sits inside a map literal (written with
map syntax), not a struct literal: `var m = map[string]E{notify:
rabbitEvents.Emit(types.EventFoo)}`. -/
def mapLitFile : GFile :=
  [ GTree.varDecl
      [⟨"m", some [.composite .mapLit
        [.keyValue (.ident ("notify") none)
          (.call (.selector (.ident ("rabbitEvents") none) ("Emit"))
            [.selector (.ident ("types") none) ("EventFoo")])]], none⟩] ]

/-- C4 counterexample: the claim says a key/value pair outside a struct
literal never produces an emitter binding, but a file containing no struct
literal at all — its key/value pair lives in a map literal — still produces
one: the handler never inspects the kind of the enclosing composite literal. -/
theorem C4_counterexample :
    fileHasStructLit mapLitFile = false
    ∧ Fact.binding ("notify") ("types.EventFoo") ∈ run ("svc") [mapLitFile] := by
  constructor
  · decide
  · decide

/-- C4 amended: an emitter binding is recorded exactly for a key/value pair
whose key is a plain identifier and whose value is a call with a two-part
qualified callee and a two-part qualified first argument, regardless of the
enclosing context (struct literal or not): the handler's test is purely local
to the key/value node. -/
theorem C4_binding_shape_only (pkg : String) (em : List (String × String))
    (nd : VisitNode) (l c : String) :
    Fact.binding l c ∈ (stepNode pkg em nd).2 ↔
      ∃ (iobj : Option GObj) (fn a0 : GExpr) (arest : List GExpr)
        (ai ase : String) (aobj : Option GObj) (fp : String × String),
        nd = .vexpr (.keyValue (.ident l iobj) (.call fn (a0 :: arest)))
        ∧ selectorParts fn = some fp
        ∧ a0 = GExpr.selector (.ident ai aobj) ase
        ∧ c = ai ++ "." ++ ase := by
  constructor
  · intro hmem
    rcases stepNode_spec pkg em nd with
        ⟨i, iobj, fn, a0, arest, ai, ase, aobj, fp, hnd, hfn, ha0, heq⟩
      | ⟨fi, fse, t, v, heq, _⟩
      | ⟨_, hnb, _⟩
    · rw [heq] at hmem
      simp only [List.mem_singleton] at hmem
      injection hmem with h1 h2
      subst h1
      exact ⟨iobj, fn, a0, arest, ai, ase, aobj, fp, hnd, hfn, ha0, h2⟩
    · rw [heq] at hmem
      simp at hmem
    · exact absurd hmem (hnb l c)
  · rintro ⟨iobj, fn, a0, arest, ai, ase, aobj, fp, rfl, hfn, rfl, rfl⟩
    have ha : selectorParts (GExpr.selector (.ident ai aobj) ase) = some (ai, ase) := rfl
    simp [stepNode, hfn, ha]

/-- Membership in the call-site projection is membership of the raw fact. -/
theorem callSiteFactsOf_mem (fs : List Fact) (cs : CallSiteFact) :
    cs ∈ callSiteFactsOf fs
      ↔ Fact.callsite cs.recv cs.meth cs.inferred cs.channel ∈ fs := by
  unfold callSiteFactsOf
  rw [List.mem_filterMap]
  constructor
  · rintro ⟨f, hf, hmap⟩
    cases f with
    | callsite a b c d =>
      simp only [Option.some_inj] at hmap
      rw [← hmap]
      exact hf
    | binding a b => simp at hmap
    | fieldEmitter a => simp at hmap
    | constDecl a b c d => simp at hmap
  · intro h
    exact ⟨.callsite cs.recv cs.meth cs.inferred cs.channel, h, rfl⟩

/-- Membership in the constant projection is membership of the raw fact. -/
theorem constFactsOf_mem (fs : List Fact) (c : ConstFact) :
    c ∈ constFactsOf fs
      ↔ Fact.constDecl c.pkg c.name c.value c.declaredType ∈ fs := by
  unfold constFactsOf
  rw [List.mem_filterMap]
  constructor
  · rintro ⟨f, hf, hmap⟩
    cases f with
    | constDecl a b c d =>
      simp only [Option.some_inj] at hmap
      rw [← hmap]
      exact hf
    | binding a b => simp at hmap
    | fieldEmitter a => simp at hmap
    | callsite a b c d => simp at hmap
  · intro h
    exact ⟨.constDecl c.pkg c.name c.value c.declaredType, h, rfl⟩

/-- Appending strings concatenates their character lists. -/
theorem string_data_append (a b : String) : (a ++ b).data = a.data ++ b.data := by
  cases a
  cases b
  rfl

/-- The synthetic placeholder is never a resolved type name: its first
non-identifier character is a dash, not the qualifying separator. -/
theorem isResolvedTypeName_mkPlaceholder (tag kind : String) :
    isResolvedTypeName (mkPlaceholder tag kind) = false := by
  have hp : isIdentChar ('p') = true := by decide
  have hk : isIdentChar ('k') = true := by decide
  have hg : isIdentChar ('g') = true := by decide
  have hd : isIdentChar ('-') = false := by decide
  have hdata : (mkPlaceholder tag kind).data
      = 'p' :: 'k' :: 'g' :: '-'
        :: (tag.data ++ ('-' :: kind.data) ++ ('\n' :: '.' :: 's' :: 'e' :: 'l' :: '-' :: tag.data)) := by
    show (("pkg-" ++ tag ++ "-" ++ kind ++ "\n") ++ "." ++ ("sel-" ++ tag)).data = _
    simp [string_data_append]
  unfold isResolvedTypeName
  rw [hdata]
  rw [show ('p' :: 'k' :: 'g' :: '-'
        :: (tag.data ++ ('-' :: kind.data) ++ ('\n' :: '.' :: 's' :: 'e' :: 'l' :: '-' :: tag.data))).dropWhile isIdentChar
      = '-' :: (tag.data ++ ('-' :: kind.data) ++ ('\n' :: '.' :: 's' :: 'e' :: 'l' :: '-' :: tag.data))
    from by simp [List.dropWhile_cons, hp, hk, hg, hd]]
  rfl

/-- A find by qualified name over constants with pairwise distinct qualified
names returns exactly the member with that name. -/
theorem find?_qualified_nodup (l : List ConstFact) (c : ConstFact) (v : String)
    (hnd : (l.map cQualified).Nodup) (hc : c ∈ l) (hv : cQualified c = v) :
    l.find? (fun x => cQualified x == v) = some c := by
  induction l with
  | nil => cases hc
  | cons a l ih =>
    rw [List.map_cons, List.nodup_cons] at hnd
    rcases List.mem_cons.mp hc with rfl | hcl
    · rw [List.find?_cons_of_pos _ (by simp [hv])]
    · have hne : cQualified a ≠ v := by
        intro hav
        apply hnd.1
        have hmm : cQualified c ∈ List.map cQualified l :=
          List.mem_map_of_mem cQualified hcl
        rw [hav, ← hv]
        exact hmm
      rw [List.find?_cons_of_neg _ (by simp [hne])]
      exact ih hnd.2 hcl

/-- C1: a mismatch finding is produced exactly when (a) the call site's method
name equals a recorded emitter binding's local name (the binding carrying the
call site's channel constant), (b) that channel constant equals some declared
constant's qualified name, and (c) the call site's inferred type and that
constant's declared type are both resolved and unequal; and in particular, for
every call site whose final argument resolved only to the unresolved synthetic
placeholder, no mismatch finding is produced.  Qualified constant names are
assumed pairwise distinct, as the data model declares them unique. -/
theorem C1_mismatch_iff (pkg : String) (files : List GFile) (m : Mismatch)
    (hU : ((constFactsOf (run pkg files)).map cQualified).Nodup) :
    (m ∈ mismatchesOf pkg files ↔
      ∃ cs ∈ callSiteFactsOf (run pkg files),
        Fact.binding cs.meth cs.channel ∈ run pkg files
        ∧ ∃ c ∈ constFactsOf (run pkg files),
            cQualified c = cs.channel
            ∧ isResolvedTypeName cs.inferred = true
            ∧ isResolvedTypeName c.declaredType = true
            ∧ cs.inferred ≠ c.declaredType
            ∧ m = ⟨cs.meth, cs.channel, c.declaredType, cs.inferred⟩)
    ∧ (∀ cs ∈ callSiteFactsOf (run pkg files), ∀ tag kind,
        cs.inferred = mkPlaceholder tag kind →
        correlateOne (constFactsOf (run pkg files)) cs = none) := by
  constructor
  · constructor
    · intro hm
      unfold mismatchesOf correlate at hm
      obtain ⟨cs, hcs, hone⟩ := List.mem_filterMap.mp hm
      unfold correlateOne at hone
      cases hfind : (constFactsOf (run pkg files)).find?
          (fun c => cQualified c == cs.channel) with
      | none =>
        rw [hfind] at hone
        exact absurd hone (by simp)
      | some c =>
        rw [hfind] at hone
        have hone2 : (if (isResolvedTypeName cs.inferred
              && isResolvedTypeName c.declaredType
              && cs.inferred != c.declaredType) = true
            then some (⟨cs.meth, cs.channel, c.declaredType, cs.inferred⟩ : Mismatch)
            else none) = some m := hone
        by_cases hcond : (isResolvedTypeName cs.inferred
            && isResolvedTypeName c.declaredType
            && cs.inferred != c.declaredType) = true
        · rw [if_pos hcond] at hone2
          injection hone2 with hone2
          simp only [Bool.and_eq_true, bne_iff_ne] at hcond
          obtain ⟨⟨hr1, hr2⟩, hr3⟩ := hcond
          refine ⟨cs, hcs, ?_, c, List.mem_of_find?_eq_some hfind, ?_,
            hr1, hr2, hr3, hone2.symm⟩
          · have hraw := (callSiteFactsOf_mem _ cs).mp hcs
            exact run_callsite_binding pkg files cs.recv cs.meth cs.inferred
              cs.channel hraw
          · have hfs := List.find?_some hfind
            simpa using hfs
        · rw [if_neg hcond] at hone2
          exact absurd hone2 (by simp)
    · rintro ⟨cs, hcs, hbind, c, hcmem, hq, hr1, hr2, hne, rfl⟩
      unfold mismatchesOf correlate
      apply List.mem_filterMap.mpr
      refine ⟨cs, hcs, ?_⟩
      unfold correlateOne
      rw [find?_qualified_nodup _ c cs.channel hU hcmem hq]
      show (if (isResolvedTypeName cs.inferred
            && isResolvedTypeName c.declaredType
            && cs.inferred != c.declaredType) = true
          then some (⟨cs.meth, cs.channel, c.declaredType, cs.inferred⟩ : Mismatch)
          else none)
        = some ⟨cs.meth, cs.channel, c.declaredType, cs.inferred⟩
      rw [if_pos (by simp [hr1, hr2, bne_iff_ne, hne])]
  · intro cs hcs tag kind hph
    have hres : isResolvedTypeName cs.inferred = false := by
      rw [hph]
      exact isResolvedTypeName_mkPlaceholder tag kind
    unfold correlateOne
    cases hfind : (constFactsOf (run pkg files)).find?
        (fun c => cQualified c == cs.channel) with
    | none => rfl
    | some c =>
      show (if (isResolvedTypeName cs.inferred
            && isResolvedTypeName c.declaredType
            && cs.inferred != c.declaredType) = true
          then some (⟨cs.meth, cs.channel, c.declaredType, cs.inferred⟩ : Mismatch)
          else none) = none
      rw [if_neg (by simp [hres])]

/-- Witness for C1 at the scenario: the single mismatch of the scenario run
satisfies the correlation conditions. -/
theorem C1_mismatch_iff_witness :
    ((constFactsOf (run ("types") [scenarioFile])).map cQualified).Nodup
    ∧ (((⟨("notify"), ("types.EventFoo"), ("pkg.FooPayload"), ("pkg.BarPayload")⟩ : Mismatch)
          ∈ mismatchesOf ("types") [scenarioFile] ↔
        ∃ cs ∈ callSiteFactsOf (run ("types") [scenarioFile]),
          Fact.binding cs.meth cs.channel ∈ run ("types") [scenarioFile]
          ∧ ∃ c ∈ constFactsOf (run ("types") [scenarioFile]),
              cQualified c = cs.channel
              ∧ isResolvedTypeName cs.inferred = true
              ∧ isResolvedTypeName c.declaredType = true
              ∧ cs.inferred ≠ c.declaredType
              ∧ (⟨("notify"), ("types.EventFoo"), ("pkg.FooPayload"), ("pkg.BarPayload")⟩ : Mismatch)
                  = ⟨cs.meth, cs.channel, c.declaredType, cs.inferred⟩)
      ∧ (∀ cs ∈ callSiteFactsOf (run ("types") [scenarioFile]), ∀ tag kind,
          cs.inferred = mkPlaceholder tag kind →
          correlateOne (constFactsOf (run ("types") [scenarioFile])) cs = none)) :=
  ⟨by decide,
    C1_mismatch_iff ("types") [scenarioFile]
      (⟨("notify"), ("types.EventFoo"), ("pkg.FooPayload"), ("pkg.BarPayload")⟩ : Mismatch)
      (by decide)⟩

end EmitterAnalysis
